import Mathlib

/-!
Shallow embedding of the relay-pty supervisor core (Rust), covering:

* `protocol.rs` — `QueuedMessage::format_for_injection` and retry escalation;
* `queue.rs` — `MessageQueue` state (`heap`, `seen_ids`, broadcast event log)
  and its operations `enqueue`, `dequeue`, `retry`, `report_result`,
  `mark_delivered`, plus the periodic dedup sweep;
* `socket.rs` — the broadcast-consumption step of `handle_connection`;
* `inject.rs` — `check_idle`, the idle-wait window of `inject_message`, and
  the status events emitted by `Injector::run`;
* `parser.rs` / `main.rs` — `strip_ansi` and `OutputParser::truncate_buffer`.

Rust `String`s that are sliced by byte index are modelled as lists of UTF-8
bytes (`ByteStr`); a byte slice `&s[..i]` or `&s[i..]` is partial, returning
`none` exactly when Rust would panic because `i` is not a char boundary.
Strings only inspected per character (the ANSI strippers) are modelled as
`List Char`. Wall-clock/monotonic instants are `Nat` milliseconds supplied
explicitly by the caller. Log statements are omitted.
-/

namespace Relay

/-- A Rust `String`/`&str` viewed as its UTF-8 bytes. -/
abbrev ByteStr := List Nat

/-- UTF-8 bytes of an ASCII string literal. Only used on ASCII literals,
where the code points coincide with the bytes. -/
def asciiBytes (s : String) : ByteStr := s.data.map (fun c => c.toNat)

/-- Rust `str::is_char_boundary` (as used implicitly by slice indexing):
`i = 0` and `i = len` are boundaries, an interior index is a boundary iff
the byte there is not a UTF-8 continuation byte (`0x80..=0xBF`). -/
def isCharBoundary (s : ByteStr) (i : Nat) : Bool :=
  if i = 0 ∨ i = s.length then true
  else
    match s.drop i with
    | [] => false
    | b :: _ => b < 0x80 ∨ 0xC0 ≤ b

/-- Rust `&s[..i]`: `some` prefix when `i` is a char boundary, `none`
models the slice panic. -/
def slicePrefixTo (s : ByteStr) (i : Nat) : Option ByteStr :=
  if isCharBoundary s i then some (s.take i) else none

/-- Rust `&s[i..]`: `some` suffix when `i` is a char boundary, `none`
models the slice panic. -/
def sliceSuffixFrom (s : ByteStr) (i : Nat) : Option ByteStr :=
  if isCharBoundary s i then some (s.drop i) else none

/-! ### protocol.rs -/

/-- Rust `QueuedMessage` (protocol.rs). `queuedAt` is a monotonic instant in ms;
the Rust field `from` is a reserved word in Lean, so it is named `sender`. -/
structure QueuedMessage where
  id : ByteStr
  sender : ByteStr
  body : ByteStr
  priority : Int
  retries : Nat
  queuedAt : Nat
deriving DecidableEq

/-- Rust `QueuedMessage::new` (protocol.rs): fresh message, `retries = 0`. -/
def QueuedMessage.new (id sender body : ByteStr) (priority : Int) (now : Nat) :
    QueuedMessage :=
  { id := id, sender := sender, body := body, priority := priority,
    retries := 0, queuedAt := now }

/-- The literal `"Relay message from "`. -/
def relayHeaderBytes : ByteStr := asciiBytes "Relay message from "

/-- Retry escalation of `format_for_injection` (protocol.rs):
`retries = 0` → no tag, `retries = 1` → `"[RETRY] "`,
`retries ≥ 2` → `"[URGENT - PLEASE ACKNOWLEDGE] "`. -/
def retryTag (retries : Nat) : ByteStr :=
  match retries with
  | 0 => []
  | 1 => asciiBytes "[RETRY] "
  | _ + 2 => asciiBytes "[URGENT - PLEASE ACKNOWLEDGE] "

/-- Rust `QueuedMessage::format_for_injection` (protocol.rs lines 235-259).
If the body already starts with `"Relay message from "` only the retry tag
is prepended; otherwise the short id is the byte slice
`&self.id[..self.id.len().min(7)]`, which panics (`none`) when that byte
index is not a char boundary of the id. -/
def formatForInjection (m : QueuedMessage) : Option ByteStr :=
  if relayHeaderBytes.isPrefixOf m.body then
    some (retryTag m.retries ++ m.body)
  else
    match slicePrefixTo m.id (min m.id.length 7) with
    | none => none
    | some shortId =>
      let baseMsg := relayHeaderBytes ++ m.sender ++ asciiBytes " [" ++
        shortId ++ asciiBytes "]: " ++ m.body
      some (retryTag m.retries ++ baseMsg)

/-! ### queue.rs -/

/-- Rust `InjectStatus` (protocol.rs). -/
inductive InjectStatus where
  | queued
  | injecting
  | delivered
  | failed
deriving DecidableEq

/-- A broadcast `InjectResponse` as sent on the queue's response channel
(queue.rs). Wall-clock timestamps that the Rust code attaches to events are
not modelled; no claim refers to them. -/
inductive QEvent where
  | injectResult (id : ByteStr) (status : InjectStatus) (error : Option ByteStr)
  | backpressure (queueLength : Nat) (accept : Bool)
deriving DecidableEq

/-- Rust `MessageQueue` state (queue.rs): the priority heap's contents, the
`seen_ids` dedup map (id, first-seen instant), the configuration, and the
cumulative log of events broadcast on `response_tx`. -/
structure QState where
  heap : List QueuedMessage
  seen : List (ByteStr × Nat)
  maxSize : Nat
  seenTtl : Nat
  cleanupInterval : Nat
  lastCleanup : Nat
  events : List QEvent
deriving DecidableEq

/-- Rust `MessageQueue::with_ttl` (queue.rs): empty queue, empty dedup map. -/
def QState.init (maxSize seenTtl cleanupInterval now : Nat) : QState :=
  { heap := [], seen := [], maxSize := maxSize, seenTtl := seenTtl,
    cleanupInterval := cleanupInterval, lastCleanup := now, events := [] }

/-- Rust `seen.contains_key(&id)` on the dedup map. -/
def seenHas (seen : List (ByteStr × Nat)) (id : ByteStr) : Bool :=
  seen.any (fun e => e.1 == id)

/-- Rust `MessageQueue::cleanup_expired_ids` (queue.rs): retain entries whose
age is strictly below the TTL. -/
def cleanupExpired (q : QState) (now : Nat) : QState :=
  { q with seen := q.seen.filter (fun e => now - e.2 < q.seenTtl) }

/-- The sweep at the top of `enqueue` (queue.rs lines 118-126): runs only
when the elapsed time since the last sweep exceeds the cleanup interval. -/
def maybeCleanup (q : QState) (now : Nat) : QState :=
  if q.cleanupInterval < now - q.lastCleanup then
    cleanupExpired { q with lastCleanup := now } now
  else q

/-- Rust `MessageQueue::enqueue` (queue.rs lines 117-180). Returns the new state
and the `bool` result. The dedup insert happens before the capacity check;
a capacity rejection broadcasts `Backpressure{accept:false}`; a successful
push broadcasts `Queued` and, when the new length equals `max_size / 2`,
also `Backpressure{accept:true}`. The heap is kept as an unordered list
(`BinaryHeap::push` = cons); ordering is applied at `dequeue`. -/
def enqueue (q0 : QState) (msg : QueuedMessage) (now : Nat) : QState × Bool :=
  let q := maybeCleanup q0 now
  if seenHas q.seen msg.id then
    (q, false)
  else
    let q1 : QState := { q with seen := (msg.id, now) :: q.seen }
    if q1.maxSize ≤ q1.heap.length then
      ({ q1 with
          events := q1.events ++ [QEvent.backpressure q1.heap.length false] },
        false)
    else
      let q2 : QState := { q1 with
        heap := msg :: q1.heap,
        events := q1.events ++ [QEvent.injectResult msg.id InjectStatus.queued none] }
      if q2.heap.length = q2.maxSize / 2 then
        ({ q2 with
            events := q2.events ++ [QEvent.backpressure q2.heap.length true] },
          true)
      else
        (q2, true)

/-- The min-heap key order of `PriorityMessage` (queue.rs lines 41-50):
lower `priority` first, ties by older `queued_at`. -/
def keyLe (a b : QueuedMessage) : Bool :=
  decide (a.priority < b.priority) ||
    (decide (a.priority = b.priority) && decide (a.queuedAt ≤ b.queuedAt))

/-- Rust `BinaryHeap::pop` on the reversed order: extract an element minimal for
`(priority, queued_at)` together with the remaining heap contents. -/
def popMin : List QueuedMessage → Option (QueuedMessage × List QueuedMessage)
  | [] => none
  | m :: rest =>
    match popMin rest with
    | none => some (m, [])
    | some (m', rest') =>
      if keyLe m m' then some (m, rest) else some (m', m :: rest')

/-- Rust `MessageQueue::dequeue` (queue.rs lines 183-186). `wait_and_dequeue`
behaves identically once a message is available (when the heap is empty it
suspends without touching the state, which here is the `none` branch). -/
def dequeue (q : QState) : QState × Option QueuedMessage :=
  match popMin q.heap with
  | none => (q, none)
  | some (m, rest) => ({ q with heap := rest }, some m)

/-- Rust `MessageQueue::retry` (queue.rs lines 231-238): increment `retries`,
refresh `queued_at`, push back. No capacity check, no broadcast. -/
def retryPush (q : QState) (msg : QueuedMessage) (now : Nat) : QState :=
  { q with heap := { msg with retries := msg.retries + 1, queuedAt := now } :: q.heap }

/-- An operation on the shared `MessageQueue`, for reasoning about
operation sequences. -/
inductive QOp where
  | enq (msg : QueuedMessage) (now : Nat)
  | deq
  | retryOp (msg : QueuedMessage) (now : Nat)
deriving DecidableEq

def QOp.isRetryOp : QOp → Bool
  | .retryOp _ _ => true
  | _ => false

/-- Apply one queue operation (dropping the return values). -/
def applyOp (q : QState) : QOp → QState
  | .enq m now => (enqueue q m now).1
  | .deq => (dequeue q).1
  | .retryOp m now => retryPush q m now

/-- Run a sequence of queue operations. -/
def runOps (q : QState) (ops : List QOp) : QState := ops.foldl applyOp q

/-! ### socket.rs -/

/-- A snapshot of the `Injector` atomics read by `check_idle`
(inject.rs): `auto_suggestion_visible`, `is_idle`, `last_output_ms`. -/
structure InjectorSnapshot where
  autoSuggestionVisible : Bool
  isIdle : Bool
  lastOutputMs : Nat
deriving DecidableEq

/-- Rust `Injector::check_idle` (inject.rs lines 103-121): `false` while an
auto-suggestion is visible; else `true` on the explicit idle flag; else
compare the silence (saturating subtraction) against the idle timeout. -/
def checkIdle (idleTimeoutMs : Nat) (s : InjectorSnapshot) (nowMs : Nat) : Bool :=
  if s.autoSuggestionVisible then false
  else if s.isIdle then true
  else idleTimeoutMs ≤ nowMs - s.lastOutputMs

/-- The idle-wait loop of `inject_message` (inject.rs lines 206-222):
polling at 50 ms cadence over a 10 s window, the loop exits at the first
poll where `check_idle` holds, or after the final poll regardless. `st i`
and `tms i` give the injector snapshot and clock at the `i`-th poll;
`npolls` is the number of polls the window allows (10 s / 50 ms = 200).
The returned index is the poll at which the PTY write is performed. -/
def writePollIndex (idleTimeoutMs : Nat) (st : Nat → InjectorSnapshot)
    (tms : Nat → Nat) (npolls : Nat) : Nat :=
  ((List.range npolls).find? (fun i => checkIdle idleTimeoutMs (st i) (tms i))).getD
    npolls

/-- The injector state at the moment `inject_message` sends the message
bytes to the PTY write channel. -/
def writeSnapshot (idleTimeoutMs : Nat) (st : Nat → InjectorSnapshot)
    (tms : Nat → Nat) (npolls : Nat) : InjectorSnapshot :=
  st (writePollIndex idleTimeoutMs st tms npolls)

/-- Outcome of one `pty_tx.send` in `inject_message`. -/
inductive WriteOutcome where
  | success
  | channelClosed
deriving DecidableEq

/-- The value `inject_message` returns (inject.rs lines 202-267), as a
function of the two channel sends (message bytes, then the carriage
return): an error if either send fails, otherwise `Ok(true)`. The
`Ok(false)` verification-failure value exists in the caller's match but is
never produced. -/
def injectMessageResult (w1 w2 : WriteOutcome) : Except Unit Bool :=
  match w1 with
  | .channelClosed => .error ()
  | .success =>
    match w2 with
    | .channelClosed => .error ()
    | .success => .ok true

/-- The per-id statuses broadcast by the body of `Injector::run`
(inject.rs lines 150-198) across the attempts made for one message. Each
element of `ws` gives the channel-send outcomes of one attempt; `retries`
is the message's retry count at the first attempt. `Injecting` is reported
after each dequeue; `Ok(true)` yields `Delivered`, `Ok(false)` yields a
silent `retry` (next attempt) or `Failed` once retries are exhausted, and
a send error yields `Failed`. -/
def attemptEvents (maxRetries : Nat) : Nat → List (WriteOutcome × WriteOutcome) →
    List InjectStatus
  | _, [] => []
  | retries, (w1, w2) :: ws =>
    InjectStatus.injecting ::
      (match injectMessageResult w1 w2 with
       | .ok true => [InjectStatus.delivered]
       | .ok false =>
         if retries < maxRetries then attemptEvents maxRetries (retries + 1) ws
         else [InjectStatus.failed]
       | .error _ => [InjectStatus.failed])

/-- All statuses broadcast for one accepted message: the `Queued` from
`enqueue`, then whatever the injector loop reports once it picks the
message up (`ws = []` when the injector never dequeues it). -/
def lifetimeEvents (maxRetries retries : Nat)
    (ws : List (WriteOutcome × WriteOutcome)) : List InjectStatus :=
  InjectStatus.queued :: attemptEvents maxRetries retries ws

/-! ### parser.rs: regex-based strip_ansi -/

/-- The escape character. -/
def escChar : Char := Char.ofNat 27

/-- The CSI arm of `ansi_pattern` (parser.rs line 225) after `ESC [`:
greedily drop `[0-9;]*`, then require one `[A-Za-z]` final byte. Returns
the remainder after the match, `none` when the arm does not match here. -/
def csiMatch (l : List Char) : Option (List Char) :=
  match l.dropWhile (fun c => c.isDigit || c = ';') with
  | [] => none
  | c :: rest => if c.isAlpha then some rest else none

/-- The OSC arm of `ansi_pattern` after `ESC ]`: lazily consume up to the
first BEL (`\x07`); `.` does not cross a newline, so a newline before the
BEL means no match. -/
def oscMatch : List Char → Option (List Char)
  | [] => none
  | c :: rest =>
    if c = Char.ofNat 7 then some rest
    else if c = '\n' then none
    else oscMatch rest

/-- Rust `strip_ansi` (parser.rs lines 724-727): `replace_all` of the regex
`\x1B\[[0-9;]*[A-Za-z]|\x1B\].*?\x07` with the empty string — a single
left-to-right scan removing non-overlapping leftmost matches. Structured
with a fuel argument (one unit per consumed input character) so that the
definition computes by reduction; `stripAnsi` supplies `l.length`, which
is always sufficient since every step consumes at least one character. -/
def stripAnsiAux : Nat → List Char → List Char
  | 0, _ => []
  | _ + 1, [] => []
  | fuel + 1, c :: rest =>
    if c = escChar then
      match rest with
      | '[' :: r =>
        match csiMatch r with
        | some r' => stripAnsiAux fuel r'
        | none => c :: stripAnsiAux fuel rest
      | ']' :: r =>
        match oscMatch r with
        | some r' => stripAnsiAux fuel r'
        | none => c :: stripAnsiAux fuel rest
      | _ => c :: stripAnsiAux fuel rest
    else c :: stripAnsiAux fuel rest

def stripAnsi (l : List Char) : List Char := stripAnsiAux l.length l

/-! ### main.rs: state-machine strip_ansi -/

/-- The CSI skip of main.rs `strip_ansi` (lines 850-859): consume
characters until (and including) one that is an ASCII letter, `@`, or a
backtick. -/
def mSkipCsi : List Char → List Char
  | [] => []
  | c :: rest =>
    if c.isAlpha ∨ c = '@' ∨ c = Char.ofNat 96 then rest else mSkipCsi rest

/-- The OSC skip of main.rs `strip_ansi` (lines 861-873): consume until a
BEL, or an `ESC \` string terminator (a lone ESC inside the sequence is
consumed and scanning continues). -/
def mSkipOsc : List Char → List Char
  | [] => []
  | c :: rest =>
    if c = Char.ofNat 7 then rest
    else if c = escChar then
      match rest with
      | '\\' :: r => r
      | _ => mSkipOsc rest
    else mSkipOsc rest

/-- Rust `strip_ansi` (main.rs lines 842-894): hand-rolled state machine. On
ESC, dispatch on the next character: `[` starts a CSI, `]` an OSC,
`( ) * +` consume one designator, a character in `'0'..='~'` is a simple
two-byte escape, anything else (or end of input) drops just the ESC.
Fueled like `stripAnsiAux`; each step consumes at least one character. -/
def mStripAux : Nat → List Char → List Char
  | 0, _ => []
  | _ + 1, [] => []
  | fuel + 1, c :: rest =>
    if c = escChar then
      match rest with
      | [] => []
      | d :: r =>
        if d = '[' then mStripAux fuel (mSkipCsi r)
        else if d = ']' then mStripAux fuel (mSkipOsc r)
        else if d = '(' ∨ d = ')' ∨ d = '*' ∨ d = '+' then mStripAux fuel (r.drop 1)
        else if '0' ≤ d ∧ d ≤ '~' then mStripAux fuel r
        else mStripAux fuel (d :: r)
    else c :: mStripAux fuel rest

def mStrip (l : List Char) : List Char := mStripAux l.length l

/-! ### parser.rs: OutputParser::truncate_buffer -/

/-- The parts of `OutputParser` state that `truncate_buffer` touches
(parser.rs): the accumulating buffer (a Rust `String`, so UTF-8 bytes)
and the `last_parsed_pos` cursor. -/
structure ParserBuf where
  buffer : ByteStr
  lastParsedPos : Nat
deriving DecidableEq

/-- Rust `OutputParser::truncate_buffer` (parser.rs lines 695-702): when the
buffer exceeds `max_size` bytes, keep the tail `&self.buffer[start..]`
with `start = len - max_size` and reset the cursor; `none` models the
panic when `start` is not a char boundary. -/
def truncateBuffer (st : ParserBuf) (maxSize : Nat) : Option ParserBuf :=
  if maxSize < st.buffer.length then
    match sliceSuffixFrom st.buffer (st.buffer.length - maxSize) with
    | none => none
    | some tail => some { buffer := tail, lastParsedPos := 0 }
  else some st

/-! ### Concrete inputs used by counterexamples and witnesses -/

/-- UTF-8 bytes of `"ααααα"` (five two-byte characters, 10 bytes). -/
def idFiveAlpha : ByteStr := [206, 177, 206, 177, 206, 177, 206, 177, 206, 177]

/-- UTF-8 bytes of `"αααab"` (three two-byte characters then `a`, `b`:
five characters, 8 bytes; byte index 7 is a char boundary). -/
def idAlphaAb : ByteStr := [206, 177, 206, 177, 206, 177, 97, 98]

/-- A message whose id is `"ααααα"`: byte index `min(10, 7) = 7` of the id
falls inside the fourth `α`. -/
def msgMultibyteId : QueuedMessage :=
  QueuedMessage.new idFiveAlpha (asciiBytes "Bob") (asciiBytes "Hi") 0 0

/-- A message whose id is `"αααab"`: 5 characters, 8 bytes. -/
def msgAlphaAb : QueuedMessage :=
  QueuedMessage.new idAlphaAb (asciiBytes "Bob") (asciiBytes "Hi") 0 0

/-- UTF-8 bytes of `"héllo"` (6 bytes; byte index 2 splits the `é`). -/
def helloBuf : ByteStr := [104, 195, 169, 108, 108, 111]

def msgA : QueuedMessage :=
  QueuedMessage.new (asciiBytes "a") (asciiBytes "A") (asciiBytes "first") 0 0

def msgB : QueuedMessage :=
  QueuedMessage.new (asciiBytes "b") (asciiBytes "A") (asciiBytes "second") 0 0

/-- The op sequence refuting the C3 bound: with `max_size = 1`, fill,
drain, refill, then `retry` the drained message. -/
def exC3Ops : List QOp :=
  [QOp.enq msgA 0, QOp.deq, QOp.enq msgB 0, QOp.retryOp msgA 0]

/-- The input refuting ANSI-strip idempotence: a bare ESC directly before
a complete CSI sequence, followed by text that the first pass turns into a
new CSI sequence (`"\x1b\x1b[0m[31m"`). -/
def exAnsi : List Char := [escChar, escChar, '[', '0', 'm', '[', '3', '1', 'm']

/-- A benign ANSI input (`"ab\x1b[31mc"`) whose stripped form is ESC-free. -/
def exAnsiBenign : List Char := ['a', 'b', escChar, '[', '3', '1', 'm', 'c']

/-- Whether an event is `Backpressure{accept:true}`. -/
def isBpTrue : QEvent → Bool
  | .backpressure _ true => true
  | _ => false

/-- Whether a `Backpressure{accept:true}` event has been broadcast. -/
def hasBpTrue (evs : List QEvent) : Bool := evs.any isBpTrue

/-- A queue at capacity (`max_size = 1`) holding `msgA`, used by
witnesses. -/
def fullQ : QState := (enqueue (QState.init 1 300 60 0) msgA 0).1

/-- A message whose body is already formatted (starts with
`"Relay message from "`). -/
def msgPreformatted : QueuedMessage :=
  QueuedMessage.new (asciiBytes "x1") (asciiBytes "Bob")
    (asciiBytes "Relay message from Alice [abc1234]: hello") 0 0

/-! ### C7 -/

/-- C7: refuted on the code — `format_for_injection` does not totally
compute the first 7 characters of the id: the short id is the byte slice
`&id[..id.len().min(7)]`, and for the id `"ααααα"` (10 bytes, 5
characters) byte index 7 is not a char boundary, so the slice panics
(modelled as `none`). The claim would instead require the whole 5-character
id in brackets. -/
theorem c7_multibyte_id_panics : formatForInjection msgMultibyteId = none := by
  decide

/-! ### C9 -/

/-- C9: refuted on the code — `truncate_buffer` does not snap the cut to a
code-point boundary: for the buffer `"héllo"` (6 bytes) and `max_size = 4`
the retained tail would start at byte 2, inside the `é`, and the byte
slice `&self.buffer[start..]` panics (modelled as `none`). -/
theorem c9_truncate_panics :
    truncateBuffer { buffer := helloBuf, lastParsedPos := 5 } 4 = none := by
  decide

/-! ### C6 -/

/-- C6 counterexample: for the message with id `"αααab"` (5 characters,
8 bytes) and a plain body, the claim's reading (`<id_first_7>` = the first
7 characters, hence the whole 5-character id) says the result is the full
format with the whole id in brackets; the code instead slices the first
`min(8,7) = 7` bytes of the id (`"αααa"`), so the bracketed id loses the
final character. -/
theorem c6_counterexample :
    formatForInjection msgAlphaAb ≠
      some (relayHeaderBytes ++ msgAlphaAb.sender ++ asciiBytes " [" ++
        msgAlphaAb.id ++ asciiBytes "]: " ++ msgAlphaAb.body) := by
  decide

/-! ### C3 -/

/-- C3 counterexample: with `max_size = 1`, the operation sequence
enqueue `a`, dequeue, enqueue `b`, retry `a` leaves two messages in the
heap — `MessageQueue::retry` pushes without any capacity check, so the
heap exceeds the configured maximum. -/
theorem c3_counterexample :
    ¬ ((runOps (QState.init 1 300 60 0) exC3Ops).heap.length ≤
        (QState.init 1 300 60 0).maxSize) := by
  decide

/-! ### C4 -/

/-- C4 counterexample: with `max_size = 2`, the very first (accepted)
enqueue brings the queue length to `2 / 2 = 1` and broadcasts
`Backpressure{accept:true, queue_length:1}` — in a run in which no enqueue
was ever rejected for capacity, and on an upward crossing caused by
enqueue rather than a drain after a rejection. -/
theorem c4_counterexample :
    (enqueue (QState.init 2 300 60 0) msgA 0).2 = true ∧
    (enqueue (QState.init 2 300 60 0) msgA 0).1.events =
      [QEvent.injectResult msgA.id InjectStatus.queued none,
       QEvent.backpressure 1 true] := by
  decide

/-! ### C5 -/

/-- C8 counterexample: for the input `"\x1b\x1b[0m[31m"` the first pass of
the regex-based `strip_ansi` (parser.rs) removes `"\x1b[0m"`, leaving
`"\x1b[31m"` — a newly formed CSI sequence that a second pass removes, so
`strip_ansi(strip_ansi(s)) ≠ strip_ansi(s)`. -/
theorem c8_counterexample : stripAnsi (stripAnsi exAnsi) ≠ stripAnsi exAnsi := by
  decide

/-! ### C2 -/

/-- C2 counterexample: if an auto-suggestion stays visible for the whole
10 s window (200 polls at 50 ms), `check_idle` is false at every poll, the
window times out, and `inject_message` sends the message bytes anyway —
while `auto_suggestion_visible` is `true`. -/
theorem c2_counterexample :
    (writeSnapshot 500
      (fun _ => { autoSuggestionVisible := true, isIdle := true, lastOutputMs := 0 })
      (fun i => 50 * i) 200).autoSuggestionVisible = true := by
  decide

/-! ### C1 -/

/-- The verification stub: `inject_message` never returns `Ok(false)`, so
the retry re-queue (and with it a repeated `Injecting`) is unreachable. -/
theorem injectMessageResult_ne_ok_false (w1 w2 : WriteOutcome) :
    injectMessageResult w1 w2 ≠ .ok false := by
  cases w1 <;> cases w2 <;> simp [injectMessageResult]

/-- C1: for every accepted message, the per-id statuses broadcast by
`enqueue` and `Injector::run` (with `retry` broadcasting nothing) form a
prefix of `[Queued, Injecting, Delivered]` or `[Queued, Injecting, Failed]`
or `[Queued, Failed]`, and no status is broadcast twice. -/
theorem c1_status_sequences (maxRetries retries : Nat)
    (ws : List (WriteOutcome × WriteOutcome)) :
    (lifetimeEvents maxRetries retries ws <+:
        [InjectStatus.queued, InjectStatus.injecting, InjectStatus.delivered] ∨
      lifetimeEvents maxRetries retries ws <+:
        [InjectStatus.queued, InjectStatus.injecting, InjectStatus.failed] ∨
      lifetimeEvents maxRetries retries ws <+:
        [InjectStatus.queued, InjectStatus.failed]) ∧
    (lifetimeEvents maxRetries retries ws).Nodup := by
  cases ws with
  | nil =>
    constructor
    · left; exact ⟨[InjectStatus.injecting, InjectStatus.delivered], rfl⟩
    · simp [lifetimeEvents, attemptEvents]
  | cons p ws' =>
    obtain ⟨w1, w2⟩ := p
    cases w1 <;> cases w2 <;>
      simp only [lifetimeEvents, attemptEvents, injectMessageResult] <;>
      constructor
    · left; exact ⟨[], rfl⟩
    · decide
    · right; left; exact ⟨[], rfl⟩
    · decide
    · right; left; exact ⟨[], rfl⟩
    · decide
    · right; left; exact ⟨[], rfl⟩
    · decide

/-! ### C2 (amended) -/

/-- C2 amended: the injector's write is gated by `check_idle` only up to
the 10 s window — the write happens either at a poll where `check_idle`
holds (and then `auto_suggestion_visible` is false, by the guard), or at
window timeout regardless of the injector state. The guard itself is
unconditional: `check_idle` never returns `true` while
`auto_suggestion_visible` is set. -/
theorem c2_write_gate :
    (∀ (idleTimeoutMs : Nat) (st : Nat → InjectorSnapshot) (tms : Nat → Nat)
      (npolls : Nat),
      checkIdle idleTimeoutMs (writeSnapshot idleTimeoutMs st tms npolls)
          (tms (writePollIndex idleTimeoutMs st tms npolls)) = true ∨
        writePollIndex idleTimeoutMs st tms npolls = npolls) ∧
    (∀ (idleTimeoutMs : Nat) (s : InjectorSnapshot) (nowMs : Nat),
      (checkIdle idleTimeoutMs s nowMs && s.autoSuggestionVisible) = false) := by
  constructor
  · intro idleTimeoutMs st tms npolls
    unfold writeSnapshot writePollIndex
    cases h : (List.range npolls).find?
        (fun i => checkIdle idleTimeoutMs (st i) (tms i)) with
    | none => right; simp
    | some i =>
      left
      have := List.find?_some h
      simpa using this
  · intro idleTimeoutMs s nowMs
    unfold checkIdle
    cases hs : s.autoSuggestionVisible <;> simp [hs]

/-! ### C8 (amended) -/

/-- On ESC-free input the regex scan is the identity. -/
theorem stripAnsiAux_of_not_mem :
    ∀ (fuel : Nat) (l : List Char), l.length ≤ fuel → escChar ∉ l →
      stripAnsiAux fuel l = l := by
  intro fuel
  induction fuel with
  | zero =>
    intro l hl _
    cases l with
    | nil => rfl
    | cons c rest => simp at hl
  | succ n ih =>
    intro l hl hm
    cases l with
    | nil => rfl
    | cons c rest =>
      have hc : ¬ c = escChar := fun h => hm (by rw [h]; exact List.mem_cons_self _ _)
      unfold stripAnsiAux
      rw [if_neg hc]
      have hrest : rest.length ≤ n := by simp at hl; omega
      rw [ih rest hrest (fun h => hm (List.mem_cons_of_mem _ h))]

/-- The main.rs state machine never emits an ESC character. -/
theorem mStripAux_not_mem : ∀ (fuel : Nat) (l : List Char),
    escChar ∉ mStripAux fuel l := by
  intro fuel
  induction fuel with
  | zero => intro l; simp [mStripAux]
  | succ n ih =>
    intro l
    cases l with
    | nil => simp [mStripAux]
    | cons c rest =>
      by_cases hc : c = escChar
      · cases rest with
        | nil => simp [mStripAux, hc]
        | cons d r =>
          simp only [mStripAux, if_pos hc]
          split
          · exact ih _
          · split
            · exact ih _
            · split
              · exact ih _
              · split
                · exact ih _
                · exact ih _
      · simp only [mStripAux, if_neg hc]
        intro hmem
        rcases List.mem_cons.mp hmem with h | h
        · exact hc h.symm
        · exact ih rest h

/-- On ESC-free input the main.rs state machine is the identity. -/
theorem mStripAux_of_not_mem :
    ∀ (fuel : Nat) (l : List Char), l.length ≤ fuel → escChar ∉ l →
      mStripAux fuel l = l := by
  intro fuel
  induction fuel with
  | zero =>
    intro l hl _
    cases l with
    | nil => rfl
    | cons c rest => simp at hl
  | succ n ih =>
    intro l hl hm
    cases l with
    | nil => rfl
    | cons c rest =>
      have hc : ¬ c = escChar := fun h => hm (by rw [h]; exact List.mem_cons_self _ _)
      unfold mStripAux
      rw [if_neg hc]
      have hrest : rest.length ≤ n := by simp at hl; omega
      rw [ih rest hrest (fun h => hm (List.mem_cons_of_mem _ h))]

/-- C8 amended: the state-machine `strip_ansi` of main.rs is idempotent on
every input (its output never contains an ESC, and it is the identity on
ESC-free strings); the regex-based `strip_ansi` of parser.rs is idempotent
on every input whose first pass leaves no ESC character, but not in
general — a bare ESC can combine with following text exposed by the first
pass into a new escape sequence, so a second pass can strip more (see the
counterexample). This is a sufficient condition, not a characterization:
a leftover ESC that forms no new match (such as a lone trailing ESC) is
also a fixed point. -/
theorem c8_idempotence :
    (∀ l : List Char, mStrip (mStrip l) = mStrip l) ∧
    (∀ l : List Char, escChar ∉ stripAnsi l →
      stripAnsi (stripAnsi l) = stripAnsi l) := by
  constructor
  · intro l
    exact mStripAux_of_not_mem _ _ (Nat.le_refl _) (mStripAux_not_mem l.length l)
  · intro l h
    exact stripAnsiAux_of_not_mem _ _ (Nat.le_refl _) h

/-- Witness for the amended C8 at concrete inputs. -/
theorem c8_idempotence_witness :
    mStrip (mStrip exAnsi) = mStrip exAnsi ∧
    (escChar ∉ stripAnsi exAnsiBenign ∧
      stripAnsi (stripAnsi exAnsiBenign) = stripAnsi exAnsiBenign) :=
  ⟨c8_idempotence.1 exAnsi, by decide, c8_idempotence.2 exAnsiBenign (by decide)⟩

/-! ### Queue lemmas shared by C3, C4, C5, C10 -/

theorem maybeCleanup_heap (q : QState) (now : Nat) :
    (maybeCleanup q now).heap = q.heap := by
  unfold maybeCleanup cleanupExpired; split <;> rfl

theorem maybeCleanup_maxSize (q : QState) (now : Nat) :
    (maybeCleanup q now).maxSize = q.maxSize := by
  unfold maybeCleanup cleanupExpired; split <;> rfl

theorem maybeCleanup_events (q : QState) (now : Nat) :
    (maybeCleanup q now).events = q.events := by
  unfold maybeCleanup cleanupExpired; split <;> rfl

theorem maybeCleanup_seenTtl (q : QState) (now : Nat) :
    (maybeCleanup q now).seenTtl = q.seenTtl := by
  unfold maybeCleanup cleanupExpired; split <;> rfl

/-- A capacity rejection in `enqueue`: the dedup entry is inserted and
kept, only a `Backpressure{accept:false}` event is broadcast, and the heap
is untouched. -/
theorem enqueue_capacity_reject (q : QState) (msg : QueuedMessage) (now : Nat)
    (hfresh : seenHas (maybeCleanup q now).seen msg.id = false)
    (hfull : q.maxSize ≤ q.heap.length) :
    (enqueue q msg now).2 = false ∧
    (enqueue q msg now).1 =
      { maybeCleanup q now with
          seen := (msg.id, now) :: (maybeCleanup q now).seen,
          events := (maybeCleanup q now).events ++
            [QEvent.backpressure q.heap.length false] } := by
  have hh := maybeCleanup_heap q now
  have hm := maybeCleanup_maxSize q now
  simp only [enqueue, hfresh]
  rw [if_neg (by simp)]
  rw [if_pos (by simpa [hh, hm] using hfull)]
  exact ⟨rfl, by simp [hh]⟩

theorem enqueue_maxSize (q : QState) (msg : QueuedMessage) (now : Nat) :
    (enqueue q msg now).1.maxSize = q.maxSize := by
  simp only [enqueue]
  split
  · exact maybeCleanup_maxSize q now
  · split
    · simp [maybeCleanup_maxSize]
    · split <;> simp [maybeCleanup_maxSize]

/-- Lemma: `enqueue` either leaves the heap unchanged or pushes one message, and
it only pushes when the heap was strictly below capacity. -/
theorem enqueue_heap_sub (q : QState) (msg : QueuedMessage) (now : Nat) :
    (enqueue q msg now).1.heap = q.heap ∨
    ((enqueue q msg now).1.heap = msg :: q.heap ∧ q.heap.length < q.maxSize) := by
  have hh := maybeCleanup_heap q now
  have hm := maybeCleanup_maxSize q now
  simp only [enqueue]
  split
  · left; exact hh
  · split
    · left; simpa using hh
    · rename_i hcap
      have : q.heap.length < q.maxSize := by
        simp only [hh, hm] at hcap; omega
      split
      · right; exact ⟨by simp [hh], this⟩
      · right; exact ⟨by simp [hh], this⟩

theorem popMin_length :
    ∀ {l : List QueuedMessage} {p : QueuedMessage × List QueuedMessage},
      popMin l = some p → p.2.length < l.length := by
  intro l
  induction l with
  | nil => intro p h; simp [popMin] at h
  | cons m rest ih =>
    intro p h
    unfold popMin at h
    cases hr : popMin rest with
    | none =>
      rw [hr] at h
      cases h
      simp
    | some q' =>
      obtain ⟨m', rest'⟩ := q'
      rw [hr] at h
      dsimp only at h
      by_cases hk : keyLe m m' = true
      · rw [if_pos hk] at h
        cases h
        simp
      · rw [if_neg hk] at h
        cases h
        have := ih hr
        simp at this ⊢
        omega

theorem dequeue_fields (q : QState) :
    (dequeue q).1.seen = q.seen ∧ (dequeue q).1.maxSize = q.maxSize ∧
    (dequeue q).1.seenTtl = q.seenTtl ∧
    (dequeue q).1.cleanupInterval = q.cleanupInterval ∧
    (dequeue q).1.lastCleanup = q.lastCleanup ∧
    (dequeue q).1.events = q.events := by
  simp only [dequeue]
  cases h : popMin q.heap with
  | none => exact ⟨rfl, rfl, rfl, rfl, rfl, rfl⟩
  | some p => exact ⟨rfl, rfl, rfl, rfl, rfl, rfl⟩

theorem applyOp_maxSize (q : QState) (op : QOp) :
    (applyOp q op).maxSize = q.maxSize := by
  cases op with
  | enq m now => exact enqueue_maxSize q m now
  | deq => exact (dequeue_fields q).2.1
  | retryOp m now => rfl

theorem applyOp_heap_le (q : QState) (op : QOp) (hop : op.isRetryOp = false)
    (h : q.heap.length ≤ q.maxSize) :
    (applyOp q op).heap.length ≤ q.maxSize := by
  cases op with
  | enq m now =>
    rcases enqueue_heap_sub q m now with he | ⟨he, hlt⟩
    · simp only [applyOp, he]; exact h
    · simp only [applyOp, he, List.length_cons]; omega
  | deq =>
    simp only [applyOp, dequeue]
    cases hp : popMin q.heap with
    | none => exact h
    | some p =>
      have := popMin_length hp
      simp only []
      omega
  | retryOp m now => simp [QOp.isRetryOp] at hop

theorem runOps_maxSize : ∀ (ops : List QOp) (q : QState),
    (runOps q ops).maxSize = q.maxSize := by
  intro ops
  induction ops with
  | nil => intro q; rfl
  | cons op ops ih =>
    intro q
    simp only [runOps, List.foldl_cons]
    have := ih (applyOp q op)
    simp only [runOps] at this
    rw [this, applyOp_maxSize]

theorem runOps_heap_le : ∀ (ops : List QOp) (q : QState),
    (∀ op ∈ ops, op.isRetryOp = false) → q.heap.length ≤ q.maxSize →
    (runOps q ops).heap.length ≤ q.maxSize := by
  intro ops
  induction ops with
  | nil => intro q _ h; exact h
  | cons op ops ih =>
    intro q hops h
    simp only [runOps, List.foldl_cons]
    have h1 : (applyOp q op).heap.length ≤ (applyOp q op).maxSize := by
      rw [applyOp_maxSize]
      exact applyOp_heap_le q op (hops op (List.mem_cons_self _ _)) h
    have h2 := ih (applyOp q op) (fun o ho => hops o (List.mem_cons_of_mem _ ho)) h1
    simp only [runOps] at h2
    calc (ops.foldl applyOp (applyOp q op)).heap.length
        ≤ (applyOp q op).maxSize := h2
      _ = q.maxSize := applyOp_maxSize q op

/-! ### C3 (amended) -/

/-- C3 amended: across every sequence of `enqueue` / `dequeue` /
`wait_and_dequeue` operations from an empty queue, the heap never exceeds
`max_size`; and any enqueue of a non-duplicate id attempted while the heap
holds at least `max_size` messages returns `false` and broadcasts
`Backpressure{accept:false, queue_length}`. The bound excludes `retry`,
which pushes without a capacity check and can exceed `max_size` (see the
counterexample); a duplicate enqueue at capacity also returns `false` but
is rejected by the dedup check before any `Backpressure` broadcast. -/
theorem c3_bounded_without_retry :
    (∀ (ops : List QOp) (maxSize ttl ci now0 : Nat),
      (∀ op ∈ ops, op.isRetryOp = false) →
      (runOps (QState.init maxSize ttl ci now0) ops).heap.length ≤ maxSize) ∧
    (∀ (q : QState) (msg : QueuedMessage) (now : Nat),
      seenHas (maybeCleanup q now).seen msg.id = false →
      q.maxSize ≤ q.heap.length →
      (enqueue q msg now).2 = false ∧
      (enqueue q msg now).1.events =
        q.events ++ [QEvent.backpressure q.heap.length false]) := by
  constructor
  · intro ops maxSize ttl ci now0 hops
    exact runOps_heap_le ops (QState.init maxSize ttl ci now0) hops (by simp [QState.init])
  · intro q msg now hfresh hfull
    obtain ⟨h2, h1⟩ := enqueue_capacity_reject q msg now hfresh hfull
    refine ⟨h2, ?_⟩
    rw [h1]
    simp [maybeCleanup_events]

/-- Witness for the amended C3 at concrete inputs. -/
theorem c3_bounded_without_retry_witness :
    (runOps (QState.init 1 300 60 0) [QOp.enq msgA 0, QOp.deq, QOp.enq msgB 0]).heap.length ≤ 1 ∧
    ((enqueue fullQ msgB 0).2 = false ∧
      (enqueue fullQ msgB 0).1.events =
        fullQ.events ++ [QEvent.backpressure fullQ.heap.length false]) :=
  ⟨c3_bounded_without_retry.1 [QOp.enq msgA 0, QOp.deq, QOp.enq msgB 0] 1 300 60 0
      (by decide),
    c3_bounded_without_retry.2 fullQ msgB 0 (by decide) (by decide)⟩

/-! ### C4 (amended) -/

/-- C4 amended: `Backpressure{accept:true}` is broadcast exactly when a
successful `enqueue` brings the heap length up to `max_size / 2`; no prior
rejection is required or tracked, and `dequeue` and `retry` broadcast
nothing at all (in particular there is no broadcast on a downward
crossing). -/
theorem c4_accept_true_emission :
    (∀ (q : QState) (msg : QueuedMessage) (now : Nat),
      hasBpTrue (enqueue q msg now).1.events =
        (hasBpTrue q.events ||
          ((enqueue q msg now).2 &&
            ((enqueue q msg now).1.heap.length == q.maxSize / 2)))) ∧
    (∀ q : QState, (dequeue q).1.events = q.events) ∧
    (∀ (q : QState) (msg : QueuedMessage) (now : Nat),
      (retryPush q msg now).events = q.events) := by
  refine ⟨?_, fun q => (dequeue_fields q).2.2.2.2.2, fun _ _ _ => rfl⟩
  intro q msg now
  have hev := maybeCleanup_events q now
  have hm := maybeCleanup_maxSize q now
  simp only [enqueue]
  split
  · simp [hev]
  · split
    · simp [hasBpTrue, List.any_append, isBpTrue, hev]
    · split
      · rename_i hhalf
        simp only [hasBpTrue, List.any_append, isBpTrue, hev] at *
        simp [hhalf, hm] at *
        simp [hasBpTrue, List.any_append, isBpTrue, hev, hhalf]
      · rename_i hhalf
        simp only [List.length_cons, hm] at hhalf
        simp [hasBpTrue, List.any_append, isBpTrue, hev, hhalf]

/-! ### C5 (amended) -/

theorem seenHas_of_mem {seen : List (ByteStr × Nat)} {id : ByteStr} {t : Nat}
    (h : (id, t) ∈ seen) : seenHas seen id = true := by
  unfold seenHas
  rw [List.any_eq_true]
  exact ⟨(id, t), h, by simp⟩

theorem mem_maybeCleanup {q : QState} {id : ByteStr} {t now : Nat}
    (h : (id, t) ∈ q.seen) (htl : now - t < q.seenTtl) :
    (id, t) ∈ (maybeCleanup q now).seen := by
  unfold maybeCleanup cleanupExpired
  split
  · exact List.mem_filter.mpr ⟨h, by simpa using htl⟩
  · exact h

/-- A duplicate id (after the sweep) is rejected by `enqueue`. -/
theorem enqueue_dup_reject (q : QState) (msg : QueuedMessage) (now : Nat)
    (h : seenHas (maybeCleanup q now).seen msg.id = true) :
    (enqueue q msg now).2 = false := by
  simp [enqueue, h]

theorem runDeq_fields : ∀ (k : Nat) (q : QState),
    (runOps q (List.replicate k QOp.deq)).seen = q.seen ∧
    (runOps q (List.replicate k QOp.deq)).seenTtl = q.seenTtl := by
  intro k
  induction k with
  | zero => intro q; exact ⟨rfl, rfl⟩
  | succ n ih =>
    intro q
    simp only [List.replicate_succ, runOps, List.foldl_cons]
    have h := ih (applyOp q QOp.deq)
    simp only [runOps] at h
    have hd := dequeue_fields q
    exact ⟨h.1.trans hd.1, h.2.trans hd.2.2.1⟩

/-- C10 (implicit claim): a capacity rejection is not atomic — `enqueue`
inserts the id into `seen_ids` before the capacity check and the rejection
leaves it there, so within the TTL window a subsequent enqueue of the same
id is rejected as a duplicate even after the heap has drained (here: after
any number of dequeues). -/
theorem c10_rejection_keeps_id :
    ∀ (q : QState) (msg : QueuedMessage) (now : Nat),
      seenHas (maybeCleanup q now).seen msg.id = false →
      q.maxSize ≤ q.heap.length →
      ∀ (k : Nat) (msg2 : QueuedMessage) (now2 : Nat),
        msg2.id = msg.id → now2 - now < q.seenTtl →
        (enqueue q msg now).2 = false ∧
        seenHas (enqueue q msg now).1.seen msg.id = true ∧
        (enqueue (runOps (enqueue q msg now).1 (List.replicate k QOp.deq))
          msg2 now2).2 = false := by
  intro q msg now hfresh hfull k msg2 now2 hid httl
  obtain ⟨hrej, hstate⟩ := enqueue_capacity_reject q msg now hfresh hfull
  have hmem1 : (msg.id, now) ∈ (enqueue q msg now).1.seen := by
    rw [hstate]; exact List.mem_cons_self _ _
  have httl1 : (enqueue q msg now).1.seenTtl = q.seenTtl := by
    rw [hstate]; exact maybeCleanup_seenTtl q now
  refine ⟨hrej, seenHas_of_mem hmem1, ?_⟩
  set q2 := runOps (enqueue q msg now).1 (List.replicate k QOp.deq) with hq2
  have hfields := runDeq_fields k (enqueue q msg now).1
  have hmem2 : (msg.id, now) ∈ q2.seen := by rw [hq2, hfields.1]; exact hmem1
  have httl2 : now2 - now < q2.seenTtl := by
    rw [hq2, hfields.2, httl1]; exact httl
  apply enqueue_dup_reject
  rw [hid]
  exact seenHas_of_mem (mem_maybeCleanup hmem2 httl2)

/-- Witness for C10 at concrete inputs: `fullQ` is at capacity
(`max_size = 1`), `msgB` is rejected for capacity, one dequeue drains the
heap, and re-enqueuing `msgB` 10 ms later (well within the 300 s TTL) is
still rejected as a duplicate. -/
theorem c10_rejection_keeps_id_witness :
    (enqueue fullQ msgB 0).2 = false ∧
    seenHas (enqueue fullQ msgB 0).1.seen msgB.id = true ∧
    (enqueue (runOps (enqueue fullQ msgB 0).1 (List.replicate 1 QOp.deq))
      msgB 10).2 = false :=
  c10_rejection_keeps_id fullQ msgB 0 (by decide) (by decide) 1 msgB 10 rfl
    (by decide)

/-! ### C6 (amended) -/

/-- C6 amended: for a body that does not begin with
`"Relay message from "`, `format_for_injection` returns
`"Relay message from <from> [<short>]: <body>"` where `<short>` is the
first `min(7, byte-length)` BYTES of the id, provided that byte index is a
UTF-8 char boundary of the id (always the case for ASCII ids; otherwise
the slice panics, see C7); the escalation tag is empty for `retries = 0`,
`"[RETRY] "` for `retries = 1`, and `"[URGENT - PLEASE ACKNOWLEDGE] "`
for `retries ≥ 2`. For a body that already begins with
`"Relay message from "`, the result is the body unchanged except for
prepending only that escalation tag — for every id, with no second
wrapping. -/
theorem c6_format_rules :
    (∀ m : QueuedMessage, relayHeaderBytes.isPrefixOf m.body = true →
      formatForInjection m = some (retryTag m.retries ++ m.body)) ∧
    (∀ m : QueuedMessage, relayHeaderBytes.isPrefixOf m.body = false →
      isCharBoundary m.id (min m.id.length 7) = true →
      formatForInjection m =
        some (retryTag m.retries ++ (relayHeaderBytes ++ m.sender ++
          asciiBytes " [" ++ m.id.take (min m.id.length 7) ++
          asciiBytes "]: " ++ m.body))) ∧
    (retryTag 0 = [] ∧ retryTag 1 = asciiBytes "[RETRY] " ∧
      ∀ r, 2 ≤ r → retryTag r = asciiBytes "[URGENT - PLEASE ACKNOWLEDGE] ") := by
  refine ⟨?_, ?_, rfl, rfl, ?_⟩
  · intro m h
    simp [formatForInjection, h]
  · intro m h1 h2
    simp [formatForInjection, h1, slicePrefixTo, h2]
  · intro r hr
    cases r with
    | zero => omega
    | succ n =>
      cases n with
      | zero => omega
      | succ k => rfl

/-- Witness for the amended C6 at concrete inputs. -/
theorem c6_format_rules_witness :
    formatForInjection msgPreformatted =
      some (retryTag msgPreformatted.retries ++ msgPreformatted.body) ∧
    formatForInjection msgA =
      some (retryTag msgA.retries ++ (relayHeaderBytes ++ msgA.sender ++
        asciiBytes " [" ++ msgA.id.take (min msgA.id.length 7) ++
        asciiBytes "]: " ++ msgA.body)) ∧
    retryTag 5 = asciiBytes "[URGENT - PLEASE ACKNOWLEDGE] " :=
  ⟨c6_format_rules.1 msgPreformatted (by decide),
    c6_format_rules.2.1 msgA (by decide) (by decide),
    c6_format_rules.2.2.2.2 5 (by omega)⟩

end Relay
